import Mathlib

/-!
Verification development for the value-based reinforcement-learning core of
the repository (deep_q_agent.py and the epsilon-greedy exploration schedule).

Shallow embedding conventions:
* numpy float scalars and arrays are modelled over the rationals;
* a Keras model is modelled as an opaque weight value of type W together with
  an interpretation function (a parameter) mapping weights and one state to
  the per-action value estimates, so that predict_on_batch is the row-wise map
  of that function, and train_on_batch is an abstract function on weights;
* the replay buffer (ContinuousBuffer, an external collaborator whose source
  is not part of the analysed tree) is modelled as a list of transitions with
  the most recent element first; its full flag, per the specification
  (full is true once capacity has been reached at least once), is that the
  number of appended transitions has reached the configured capacity;
* randomness (the uniform draw used by epsilon-greedy selection and the
  batch sampler of the replay buffer) is passed in as an explicit parameter.
-/

/-- Transition record appended to the replay buffer by update_experience:
state, action, reward, done. -/
structure Transition (σ : Type) where
  s : σ
  a : Nat
  r : ℚ
  d : Bool
  deriving Repr, DecidableEq

/-- Batch returned by replay_buffer.sample_batch: five parallel sequences
states, actions, rewards, dones, next states. -/
structure Batch (σ : Type) where
  ss : List σ
  aa : List Nat
  rr : List ℚ
  dd : List Bool
  ss' : List σ
  deriving Repr, DecidableEq

/-- Modelled from the spec: decay schedules of the epsilon-greedy scheduler,
linear and compound (the source file epsilon_greedy.py is not part of the
analysed tree; only its unit tests are). -/
inductive DecaySchedule where
  | linear
  | compound
  deriving Repr, DecidableEq

/-- Modelled from the spec: the state of the EpsilonGreedy exploration
scheduler (epsilon_greedy.py is not part of the analysed tree): a current
epsilon bounded in the interval from eps_min to eps_initial, decay parameters,
optional periodic perturbation parameters, and an internal step counter
incremented once per training-mode selection. -/
structure EpsilonGreedy where
  eps_initial : ℚ
  decay : ℚ
  decay_schedule : DecaySchedule
  eps_min : ℚ
  perturb_increase_every : Nat
  perturb_increase_mag : ℚ
  eps_current : ℚ
  step_count : Nat
  deriving Repr, DecidableEq

/-- Modelled from the spec: one training-mode decay/perturb cycle of the
EpsilonGreedy scheduler. Decay is applied on every training-mode selection
(linear subtracts decay, compound multiplies by one minus decay, both floored
at eps_min); the step counter is incremented; perturbation fires only when
both perturbation parameters are strictly positive and the counter has
reached a multiple of perturb_increase_every, and then adds
perturb_increase_mag. -/
def decayStep (e : EpsilonGreedy) : EpsilonGreedy :=
  let decayed : ℚ :=
    match e.decay_schedule with
    | .linear => max e.eps_min (e.eps_current - e.decay)
    | .compound => max e.eps_min (e.eps_current * (1 - e.decay))
  let count := e.step_count + 1
  let eps' :=
    if 0 < e.perturb_increase_every ∧ 0 < e.perturb_increase_mag ∧
        count % e.perturb_increase_every = 0 then
      decayed + e.perturb_increase_mag
    else decayed
  { e with eps_current := eps', step_count := count }

/-- Modelled from the spec: select of the EpsilonGreedy scheduler. The
uniform random draw u stands in for the random number the implementation
draws. In training mode the random option is taken when u is below the
current epsilon and a decay/perturb cycle runs afterwards; outside training
the greedy option is always returned and the scheduler state is untouched. -/
def EpsilonGreedy.select {α : Type} (e : EpsilonGreedy) (u : ℚ)
    (greedyOption randomOption : Unit → α) (training : Bool) :
    α × EpsilonGreedy :=
  if training then
    (if u < e.eps_current then randomOption () else greedyOption (),
     decayStep e)
  else
    (greedyOption (), e)

/-- Modelled from the spec: simulate replays the requested number of
training-mode decay/perturb cycles on a private copy of the scheduler and
returns the resulting sequence of eps_current values (the starting value
followed by the value after each cycle). -/
def EpsilonGreedy.simulate (e : EpsilonGreedy) : Nat → List ℚ
  | 0 => [e.eps_current]
  | steps + 1 => e.eps_current :: (decayStep e).simulate steps

/-- Agent state of DeepQAgent: the replay buffer (most recent transition
first) with the capacity of the underlying ContinuousBuffer, the epsilon
scheduler, the discount factor gamma, the batch size replay_buffer_samples,
the optional terminal-reward override final_reward, and the weights of the
action model and of the value (target) model. -/
structure Agent (σ W : Type) where
  buffer : List (Transition σ)
  bufferCapacity : Nat
  eps : EpsilonGreedy
  gamma : ℚ
  replay_buffer_samples : Nat
  final_reward : Option ℚ
  action_model : W
  value_model : W
  deriving Repr, DecidableEq

/-- Replay buffer full flag: true once the number of appended transitions
has reached the capacity (the buffer only grows in this model, matching the
spec sentence that full is true once capacity has been reached at least
once). -/
def bufferFull {σ W : Type} (ag : Agent σ W) : Bool :=
  decide (ag.bufferCapacity ≤ ag.buffer.length)

/-- Embedding of DeepQAgent.update_experience: append the most recent step
to the replay buffer. -/
def update_experience {σ W : Type} (ag : Agent σ W) (s : σ) (a : Nat)
    (r : ℚ) (d : Bool) : Agent σ W :=
  { ag with buffer := ⟨s, a, r, d⟩ :: ag.buffer }

/-- Three-list pointwise zip, used to express the row-wise effect of the
vectorized numpy statements of update_model. -/
def zipWith3 {α β γ δ : Type} (f : α → β → γ → δ) :
    List α → List β → List γ → List δ
  | a :: as, b :: bs, c :: cs => f a b c :: zipWith3 f as bs cs
  | _, _, _ => []

/-- Maximum of a row of value estimates (np.max along the action axis); a
model output row is nonempty, the empty case is junk. -/
def rowMax : List ℚ → ℚ
  | [] => 0
  | x :: xs => xs.foldl (fun a b => if a ≤ b then b else a) x

/-- Embedding of the statement rr[~dd_mask] += np.max(y_future[~dd_mask, :],
axis=1): rows that are not done get the row maximum of the future value
estimates added to their reward; done rows are left alone. Note the source
adds the raw row maximum, without a factor gamma. -/
def addFutureMax (rr : List ℚ) (dd : List Bool) (yFuture : List (List ℚ)) :
    List ℚ :=
  zipWith3 (fun r d y => if d then r else r + rowMax y) rr dd yFuture

/-- Embedding of the statement rr[dd_mask] = self.final_reward, guarded by
final_reward being configured: done rows are overwritten with the fixed
terminal reward when one is set. -/
def applyFinalReward (fr : Option ℚ) (rr : List ℚ) (dd : List Bool) :
    List ℚ :=
  match fr with
  | none => rr
  | some f => List.zipWith (fun r d => if d then f else r) rr dd

/-- TD target vector of update_model: the sampled rewards updated first with
the future row maxima on non-done rows, then with the terminal-reward
override on done rows. -/
def tdTargets (fr : Option ℚ) (rr : List ℚ) (dd : List Bool)
    (yFuture : List (List ℚ)) : List ℚ :=
  applyFinalReward fr (addFutureMax rr dd yFuture) dd

/-- Embedding of np.put_along_axis(y_now, aa.reshape(-1, 1),
rr.reshape(-1, 1), axis=1): in each row of y_now, the column given by the
corresponding action index is overwritten with the corresponding target. -/
def putAlongAxis (yNow : List (List ℚ)) (aa : List Nat) (rr : List ℚ) :
    List (List ℚ) :=
  zipWith3 (fun row a r => row.set a r) yNow aa rr

/-- Embedding of the single inference call of update_model on the vertical
concatenation of states and next states, split back into the first n rows
and the remaining rows (y_now and y_future). -/
def predictConcat {σ : Type} (predict : σ → List ℚ) (n : Nat)
    (ss ss' : List σ) : List (List ℚ) × List (List ℚ) :=
  let y := (ss ++ ss').map predict
  (y.take n, y.drop n)

/-- Statement of the same computation the way the spec words it for the
refinement claim: the value model predicts on states and on next states in
two separate calls. -/
def predictSeparate {σ : Type} (predict : σ → List ℚ) (ss ss' : List σ) :
    List (List ℚ) × List (List ℚ) :=
  (ss.map predict, ss'.map predict)

/-- Embedding of DeepQAgent.update_model. Parameters: predict interprets
model weights on one state (predict_on_batch is its row-wise map), train is
the abstract train_on_batch weight update of the action model, sample is the
abstract random batch sampler of the replay buffer. Returns the new agent
state together with the train_on_batch call that was issued (none when the
buffer is not full and the method returns immediately). The value model
supplies the predictions; only the action model is trained. -/
def update_model {σ W : Type} (predict : W → σ → List ℚ)
    (train : W → List σ → List (List ℚ) → W)
    (sample : List (Transition σ) → Nat → Batch σ) (ag : Agent σ W) :
    Agent σ W × Option (List σ × List (List ℚ)) :=
  if ¬ bufferFull ag then
    (ag, none)
  else
    let b := sample ag.buffer ag.replay_buffer_samples
    let split := predictConcat (predict ag.value_model)
      ag.replay_buffer_samples b.ss b.ss'
    let yNow := split.1
    let yFuture := split.2
    let rr := tdTargets ag.final_reward b.rr b.dd yFuture
    let yTarget := putAlongAxis yNow b.aa rr
    ({ ag with action_model := train ag.action_model b.ss yTarget },
     some (b.ss, yTarget))

/-- Embedding of DeepQAgent.update_value_model: the value model weights are
set to the action model weights. -/
def update_value_model {σ W : Type} (ag : Agent σ W) : Agent σ W :=
  { ag with value_model := ag.action_model }

/-- Embedding of DeepQAgent._after_episode_update: the value model is synced
with the action model at the end of each episode. -/
def after_episode_update {σ W : Type} (ag : Agent σ W) : Agent σ W :=
  update_value_model ag

/-- Result of one environment step: observation, reward, done flag and the
next environment state (the info dictionary is dropped). -/
structure StepResult (σ ε : Type) where
  obs : σ
  reward : ℚ
  done : Bool
  env : ε

/-- Observable events of the training branch of the episode loop: the
transition handed to update_experience, and the invocation of update_model
together with the replay buffer contents at the moment of that call. -/
inductive Ev (σ : Type) where
  | append (t : Transition σ)
  | update (buf : List (Transition σ))

/-- Embedding of the loop body of DeepQAgent._play_episode. Per frame: the
action is obtained from the policy (get_action applied to the current
observation), the environment is stepped, the reward is accumulated, and,
when training, the transition with the pre-action observation is appended to
the buffer and update_model is invoked exactly once; the loop stops on done
or when the frame budget is exhausted. The event list records the appends
and the update_model invocations in program order. -/
def play_episode_loop {σ W ε : Type} (predict : W → σ → List ℚ)
    (train : W → List σ → List (List ℚ) → W)
    (sample : List (Transition σ) → Nat → Batch σ)
    (policy : σ → Nat) (envStep : ε → Nat → StepResult σ ε)
    (training : Bool) :
    Nat → ε → σ → ℚ → Agent σ W → List (Ev σ) →
    ℚ × Agent σ W × List (Ev σ)
  | 0, _, _, total, ag, evs => (total, ag, evs)
  | fuel + 1, e, obs, total, ag, evs =>
    let action := policy obs
    let res := envStep e action
    let total' := total + res.reward
    let next :=
      if training then
        let ag1 := update_experience ag obs action res.reward res.done
        let ag2 := (update_model predict train sample ag1).1
        (ag2, evs ++ [Ev.append ⟨obs, action, res.reward, res.done⟩,
                      Ev.update ag1.buffer])
      else (ag, evs)
    if res.done then (total', next.1, next.2)
    else play_episode_loop predict train sample policy envStep training
      fuel res.env res.obs total' next.1 next.2

/-- Embedding of DeepQAgent._play_episode: run the loop from the reset
observation with an empty event log and zero accumulated reward. -/
def play_episode {σ W ε : Type} (predict : W → σ → List ℚ)
    (train : W → List σ → List (List ℚ) → W)
    (sample : List (Transition σ) → Nat → Batch σ)
    (policy : σ → Nat) (envStep : ε → Nat → StepResult σ ε)
    (training : Bool) (maxEpisodeSteps : Nat) (e : ε) (obs : σ)
    (ag : Agent σ W) : ℚ × Agent σ W × List (Ev σ) :=
  play_episode_loop predict train sample policy envStep training
    maxEpisodeSteps e obs 0 ag []

/-- Shape-level model of a numpy ndarray: its shape and its flat contents in
row-major order. -/
structure NdArray where
  shape : List Nat
  data : List ℚ
  deriving Repr, DecidableEq

/-- Embedding of np.expand_dims(s, 0): a leading axis of extent one is
prepended; the flat row-major contents are unchanged. -/
def expandDims0 (s : NdArray) : NdArray :=
  { shape := 1 :: s.shape, data := s.data }

/-- Embedding of DeepQAgent.transform: when the state has fewer axes than
the rank the action model expects on its input, a row dimension is added in
front; otherwise the state is returned as is. -/
def transform (modelInputRank : Nat) (s : NdArray) : NdArray :=
  if s.shape.length < modelInputRank then expandDims0 s else s

/-- Trace shape of a training episode: the event log is a sequence of
two-event groups, an append immediately followed by one update_model
invocation whose buffer snapshot has the appended transition as its most
recent element. -/
inductive Blocks {σ : Type} : List (Ev σ) → Prop
  | nil : Blocks []
  | cons {t : Transition σ} {buf : List (Transition σ)} {rest : List (Ev σ)} :
      buf.head? = some t → Blocks rest →
      Blocks (Ev.append t :: Ev.update buf :: rest)

/-- Concrete epsilon scheduler used by the evaluation theorems. -/
def epsC : EpsilonGreedy :=
  { eps_initial := 1, decay := 0, decay_schedule := .linear, eps_min := 0,
    perturb_increase_every := 0, perturb_increase_mag := 0,
    eps_current := 1, step_count := 0 }

/-- Concrete value-model interpretation used to evaluate update_model on an
explicit batch: state 0 is scored with the row of values 5 and 7, every
other state with the row of values 2 and 0. -/
def predC : Unit → Nat → List ℚ :=
  fun _ s => if s = 0 then [5, 7] else [2, 0]

/-- Concrete train_on_batch stand-in with trivial weights. -/
def trainC : Unit → List Nat → List (List ℚ) → Unit :=
  fun _ _ _ => ()

/-- Concrete sampler returning a one-row batch: state 0, action 0, reward 1,
not done, next state 1. -/
def sampleC : List (Transition Nat) → Nat → Batch Nat :=
  fun _ _ => ⟨[0], [0], [1], [false], [1]⟩

/-- Concrete sampler returning a one-row done batch: state 0, action 1,
reward 4, done, next state 1. -/
def sampleD : List (Transition Nat) → Nat → Batch Nat :=
  fun _ _ => ⟨[0], [1], [4], [true], [1]⟩

/-- Concrete agent with a full one-slot replay buffer, the default discount
factor of the source (gamma equal to ninety-nine hundredths), a one-row
batch size and no terminal-reward override. -/
def agentC : Agent Nat Unit :=
  { buffer := [⟨0, 0, 1, false⟩], bufferCapacity := 1, eps := epsC,
    gamma := 99 / 100, replay_buffer_samples := 1, final_reward := none,
    action_model := (), value_model := () }

/-- Concrete agent like agentC but with an empty (not yet full) buffer. -/
def agentEmpty : Agent Nat Unit :=
  { buffer := [], bufferCapacity := 1, eps := epsC,
    gamma := 99 / 100, replay_buffer_samples := 1, final_reward := none,
    action_model := (), value_model := () }

/-- Concrete agent like agentC but with a terminal-reward override of 0. -/
def agentFR : Agent Nat Unit :=
  { buffer := [⟨0, 0, 1, false⟩], bufferCapacity := 1, eps := epsC,
    gamma := 99 / 100, replay_buffer_samples := 1, final_reward := some 0,
    action_model := (), value_model := () }

/-- Concrete compound-decay scheduler with perturbation disabled, used to
instantiate the monotonicity theorem. -/
def epsSim : EpsilonGreedy :=
  { eps_initial := 1, decay := 1, decay_schedule := .compound,
    eps_min := 0, perturb_increase_every := 0,
    perturb_increase_mag := 10, eps_current := 1, step_count := 0 }

/-! Helper lemmas on the list combinators of the embedding. -/

theorem zipWith3_getElem {α β γ δ : Type} (f : α → β → γ → δ) :
    ∀ (as : List α) (bs : List β) (cs : List γ) (i : Nat) (a : α) (b : β)
      (c : γ), as[i]? = some a → bs[i]? = some b → cs[i]? = some c →
      (zipWith3 f as bs cs)[i]? = some (f a b c)
  | a' :: as, b' :: bs, c' :: cs, i, a, b, c, ha, hb, hc => by
    cases i with
    | zero =>
      simp only [List.getElem?_cons_zero, Option.some.injEq] at ha hb hc
      simp [zipWith3, ha, hb, hc]
    | succ n =>
      simp only [List.getElem?_cons_succ] at ha hb hc
      simpa [zipWith3] using zipWith3_getElem f as bs cs n a b c ha hb hc
  | [], _, _, i, a, b, c, ha, _, _ => by simp at ha
  | _ :: _, [], _, i, a, b, c, _, hb, _ => by simp at hb
  | _ :: _, _ :: _, [], i, a, b, c, _, _, hc => by simp at hc

theorem zipWith_getElem2 {α β γ : Type} (f : α → β → γ) :
    ∀ (as : List α) (bs : List β) (i : Nat) (a : α) (b : β),
      as[i]? = some a → bs[i]? = some b →
      (List.zipWith f as bs)[i]? = some (f a b)
  | a' :: as, b' :: bs, i, a, b, ha, hb => by
    cases i with
    | zero =>
      simp only [List.getElem?_cons_zero, Option.some.injEq] at ha hb
      simp [ha, hb]
    | succ n =>
      simp only [List.getElem?_cons_succ] at ha hb
      simpa using zipWith_getElem2 f as bs n a b ha hb
  | [], _, i, a, b, ha, _ => by simp at ha
  | _ :: _, [], i, a, b, _, hb => by simp at hb

/-- C10: for every state array, transform prepends exactly one batch
dimension of extent one when the array has fewer axes than the model input
expects and returns the array unchanged otherwise; the element values are
never altered. -/
theorem transform_adds_single_batch_dim (r : Nat) (s : NdArray) :
    (transform r s).data = s.data ∧
    (transform r s).shape =
      (if s.shape.length < r then 1 :: s.shape else s.shape) := by
  unfold transform expandDims0
  split <;> simp

/-- C8: a selection with training set to false returns the result of the
greedy option whatever the current epsilon and the random draw are, the
random option is not consulted, and the scheduler state is returned
unchanged. -/
theorem select_not_training_returns_greedy {α : Type} (e : EpsilonGreedy)
    (u : ℚ) (greedyOption randomOption : Unit → α) :
    e.select u greedyOption randomOption false = (greedyOption (), e) := by
  unfold EpsilonGreedy.select
  simp

/-- C2: when the replay buffer is not full, update_model returns the agent
unchanged (buffer, both models and epsilon scheduler untouched) and issues
no train_on_batch call, for every sampler and training function — a silent
no-op. -/
theorem update_model_noop_when_buffer_not_full {σ W : Type}
    (predict : W → σ → List ℚ) (train : W → List σ → List (List ℚ) → W)
    (sample : List (Transition σ) → Nat → Batch σ) (ag : Agent σ W)
    (h : bufferFull ag = false) :
    update_model predict train sample ag = (ag, none) := by
  unfold update_model
  simp [h]

/-- Witness for C2 at a concrete agent whose one-slot buffer is empty. -/
theorem update_model_noop_when_buffer_not_full_witness :
    bufferFull agentEmpty = false ∧
    update_model predC trainC sampleC agentEmpty = (agentEmpty, none) :=
  ⟨by decide,
   update_model_noop_when_buffer_not_full predC trainC sampleC agentEmpty
     (by decide)⟩

/-- C5: when the sampled states list has exactly the configured number of
rows, splitting the single inference call on the concatenation of states
and next states into its first n rows and its remaining rows yields the
same pair as predicting the two lists separately with the same model. -/
theorem predict_concat_split_eq_separate {σ : Type} (predict : σ → List ℚ)
    (n : Nat) (ss ss' : List σ) (h : ss.length = n) :
    predictConcat predict n ss ss' = predictSeparate predict ss ss' := by
  unfold predictConcat predictSeparate
  have hlen : (ss.map predict).length = n := by simpa using h
  simp only [List.map_append]
  refine Prod.ext ?_ ?_
  · simpa using List.take_left' hlen
  · simpa using List.drop_left' hlen

/-- Witness for C5 at a concrete two-row batch. -/
theorem predict_concat_split_eq_separate_witness :
    ([0, 1] : List Nat).length = 2 ∧
    predictConcat (predC ()) 2 [0, 1] [1, 1] =
      predictSeparate (predC ()) [0, 1] [1, 1] :=
  ⟨rfl, predict_concat_split_eq_separate (predC ()) 2 [0, 1] [1, 1] rfl⟩

/-! Stability of the value model across update_model and the episode loop. -/

theorem update_model_preserves_value_model {σ W : Type}
    (predict : W → σ → List ℚ) (train : W → List σ → List (List ℚ) → W)
    (sample : List (Transition σ) → Nat → Batch σ) (ag : Agent σ W) :
    (update_model predict train sample ag).1.value_model = ag.value_model := by
  unfold update_model
  split <;> rfl

theorem play_episode_loop_preserves_value_model {σ W ε : Type}
    (predict : W → σ → List ℚ) (train : W → List σ → List (List ℚ) → W)
    (sample : List (Transition σ) → Nat → Batch σ)
    (policy : σ → Nat) (envStep : ε → Nat → StepResult σ ε)
    (training : Bool) :
    ∀ (fuel : Nat) (e : ε) (obs : σ) (total : ℚ) (ag : Agent σ W)
      (evs : List (Ev σ)),
      (play_episode_loop predict train sample policy envStep training fuel e
          obs total ag evs).2.1.value_model = ag.value_model
  | 0, _, _, _, _, _ => rfl
  | fuel + 1, e, obs, total, ag, evs => by
    have hnext : ∀ res : StepResult σ ε,
        ((if training then
            let ag1 := update_experience ag obs (policy obs) res.reward
              res.done
            let ag2 := (update_model predict train sample ag1).1
            (ag2, evs ++ [Ev.append ⟨obs, policy obs, res.reward, res.done⟩,
                          Ev.update ag1.buffer])
          else (ag, evs)) : Agent σ W × List (Ev σ)).1.value_model =
          ag.value_model := by
      intro res
      split
      · simpa [update_experience] using
          update_model_preserves_value_model predict train sample
            (update_experience ag obs (policy obs) res.reward res.done)
      · rfl
    show (if (envStep e (policy obs)).done then _
          else play_episode_loop predict train sample policy envStep training
            fuel (envStep e (policy obs)).env (envStep e (policy obs)).obs _
            _ _).2.1.value_model = ag.value_model
    split
    · exact hnext (envStep e (policy obs))
    · rw [play_episode_loop_preserves_value_model predict train sample policy
        envStep training fuel]
      exact hnext (envStep e (policy obs))

/-- C7: update_value_model copies the action model weights into the value
model and changes nothing else (hard sync, no averaging); the after-episode
hook is exactly one invocation of update_value_model; and a full run of the
episode loop, training or not, never changes the value model weights, so the
end-of-episode sync is the only point at which they change. -/
theorem value_model_sync_and_mid_episode_stability {σ W ε : Type}
    (predict : W → σ → List ℚ) (train : W → List σ → List (List ℚ) → W)
    (sample : List (Transition σ) → Nat → Batch σ)
    (policy : σ → Nat) (envStep : ε → Nat → StepResult σ ε)
    (training : Bool) (maxEpisodeSteps : Nat) (e : ε) (obs : σ)
    (ag : Agent σ W) :
    update_value_model ag = { ag with value_model := ag.action_model } ∧
    after_episode_update ag = update_value_model ag ∧
    (play_episode predict train sample policy envStep training
        maxEpisodeSteps e obs ag).2.1.value_model = ag.value_model :=
  ⟨rfl, rfl,
   play_episode_loop_preserves_value_model predict train sample policy
     envStep training maxEpisodeSteps e obs 0 ag []⟩

/-! Trace structure of a training episode. -/

theorem blocks_append {σ : Type} {xs ys : List (Ev σ)} (hx : Blocks xs)
    (hy : Blocks ys) : Blocks (xs ++ ys) := by
  induction hx with
  | nil => simpa using hy
  | cons h _ ih => exact Blocks.cons h ih

theorem play_episode_loop_blocks {σ W ε : Type}
    (predict : W → σ → List ℚ) (train : W → List σ → List (List ℚ) → W)
    (sample : List (Transition σ) → Nat → Batch σ)
    (policy : σ → Nat) (envStep : ε → Nat → StepResult σ ε) :
    ∀ (fuel : Nat) (e : ε) (obs : σ) (total : ℚ) (ag : Agent σ W)
      (evs : List (Ev σ)), Blocks evs →
      Blocks (play_episode_loop predict train sample policy envStep true fuel
        e obs total ag evs).2.2
  | 0, _, _, _, _, _, hevs => hevs
  | fuel + 1, e, obs, total, ag, evs, hevs => by
    have hstep : Blocks (evs ++
        [Ev.append ⟨obs, policy obs, (envStep e (policy obs)).reward,
           (envStep e (policy obs)).done⟩,
         Ev.update (update_experience ag obs (policy obs)
           (envStep e (policy obs)).reward (envStep e (policy obs)).done
           ).buffer]) :=
      blocks_append hevs (Blocks.cons rfl Blocks.nil)
    show Blocks (if (envStep e (policy obs)).done then _
      else play_episode_loop predict train sample policy envStep true fuel
        (envStep e (policy obs)).env (envStep e (policy obs)).obs _ _ _).2.2
    split
    · exact hstep
    · exact play_episode_loop_blocks predict train sample policy envStep fuel
        (envStep e (policy obs)).env (envStep e (policy obs)).obs _ _ _ hstep

/-- C6: the observable event log of a training episode is a sequence of
two-event groups, each an append of the transition built from the pre-action
observation and the action, reward and done flag of that environment step,
immediately followed by exactly one update_model invocation, and the replay
buffer at that invocation carries the just-appended transition as its most
recent element — so the append happens strictly before any sampling of the
same step. -/
theorem play_episode_training_appends_then_updates {σ W ε : Type}
    (predict : W → σ → List ℚ) (train : W → List σ → List (List ℚ) → W)
    (sample : List (Transition σ) → Nat → Batch σ)
    (policy : σ → Nat) (envStep : ε → Nat → StepResult σ ε)
    (maxEpisodeSteps : Nat) (e : ε) (obs : σ) (ag : Agent σ W) :
    Blocks (play_episode predict train sample policy envStep true
      maxEpisodeSteps e obs ag).2.2 :=
  play_episode_loop_blocks predict train sample policy envStep
    maxEpisodeSteps e obs 0 ag [] Blocks.nil

/-! Characterization of the train_on_batch call issued on a full buffer. -/

theorem update_model_snd_full {σ W : Type} (predict : W → σ → List ℚ)
    (train : W → List σ → List (List ℚ) → W)
    (sample : List (Transition σ) → Nat → Batch σ) (ag : Agent σ W)
    (hfull : bufferFull ag = true) :
    (update_model predict train sample ag).2 =
      some ((sample ag.buffer ag.replay_buffer_samples).ss,
        putAlongAxis
          (predictConcat (predict ag.value_model) ag.replay_buffer_samples
            (sample ag.buffer ag.replay_buffer_samples).ss
            (sample ag.buffer ag.replay_buffer_samples).ss').1
          (sample ag.buffer ag.replay_buffer_samples).aa
          (tdTargets ag.final_reward
            (sample ag.buffer ag.replay_buffer_samples).rr
            (sample ag.buffer ag.replay_buffer_samples).dd
            (predictConcat (predict ag.value_model) ag.replay_buffer_samples
              (sample ag.buffer ag.replay_buffer_samples).ss
              (sample ag.buffer ag.replay_buffer_samples).ss').2)) := by
  unfold update_model
  simp [hfull]

theorem tdTargets_done_getElem (f r0 : ℚ) (rr : List ℚ) (dd : List Bool)
    (yF : List (List ℚ)) (r : Nat) (yfr : List ℚ)
    (hd : dd[r]? = some true) (hr : rr[r]? = some r0)
    (hy : yF[r]? = some yfr) :
    (tdTargets (some f) rr dd yF)[r]? = some f := by
  unfold tdTargets applyFinalReward
  have h1 : (addFutureMax rr dd yF)[r]? = some r0 := by
    unfold addFutureMax
    rw [zipWith3_getElem _ rr dd yF r r0 true yfr hr hd hy]
    simp
  rw [zipWith_getElem2 _ (addFutureMax rr dd yF) dd r r0 true h1 hd]
  simp

/-- C3: when a terminal-reward override is configured (any value, including
zero), the train_on_batch target written for each done row at that row's
taken action equals exactly the override, independent of the observed
reward of that row. -/
theorem update_model_final_reward_overrides_done_rows {σ W : Type}
    (predict : W → σ → List ℚ) (train : W → List σ → List (List ℚ) → W)
    (sample : List (Transition σ) → Nat → Batch σ) (ag : Agent σ W)
    (f r0 : ℚ) (r a : Nat) (row yfr : List ℚ)
    (hfr : ag.final_reward = some f) (hfull : bufferFull ag = true)
    (hd : (sample ag.buffer ag.replay_buffer_samples).dd[r]? = some true)
    (hr : (sample ag.buffer ag.replay_buffer_samples).rr[r]? = some r0)
    (hy : (predictConcat (predict ag.value_model) ag.replay_buffer_samples
        (sample ag.buffer ag.replay_buffer_samples).ss
        (sample ag.buffer ag.replay_buffer_samples).ss').2[r]? = some yfr)
    (hrow : (predictConcat (predict ag.value_model) ag.replay_buffer_samples
        (sample ag.buffer ag.replay_buffer_samples).ss
        (sample ag.buffer ag.replay_buffer_samples).ss').1[r]? = some row)
    (ha : (sample ag.buffer ag.replay_buffer_samples).aa[r]? = some a)
    (haRow : a < row.length) :
    ∃ ssT yT, (update_model predict train sample ag).2 = some (ssT, yT) ∧
      yT[r]?.bind (fun w => w[a]?) = some f := by
  refine ⟨_, _, update_model_snd_full predict train sample ag hfull, ?_⟩
  have htgt := tdTargets_done_getElem f r0
    (sample ag.buffer ag.replay_buffer_samples).rr
    (sample ag.buffer ag.replay_buffer_samples).dd
    (predictConcat (predict ag.value_model) ag.replay_buffer_samples
      (sample ag.buffer ag.replay_buffer_samples).ss
      (sample ag.buffer ag.replay_buffer_samples).ss').2
    r yfr hd hr hy
  rw [hfr]
  unfold putAlongAxis
  rw [zipWith3_getElem _ _ _ _ r row a f hrow ha htgt]
  simpa using List.getElem?_set_eq_of_lt f haRow

/-- Witness for C3: a concrete agent with override zero, a one-row done
batch with observed reward four; the emitted target for the taken action is
exactly zero. -/
theorem update_model_final_reward_overrides_done_rows_witness :
    agentFR.final_reward = some 0 ∧ bufferFull agentFR = true ∧
    ∃ ssT yT, (update_model predC trainC sampleD agentFR).2 =
        some (ssT, yT) ∧
      yT[0]?.bind (fun w => w[1]?) = some 0 :=
  ⟨rfl, by decide,
   update_model_final_reward_overrides_done_rows predC trainC sampleD agentFR
     0 4 0 1 [5, 7] [2, 0] rfl (by decide) (by decide) (by decide)
     (by decide) (by decide) (by decide) (by decide)⟩

/-- C4: the target matrix handed to train_on_batch agrees with the model's
own current prediction values_now everywhere except, per row, the single
column of the taken action: for every row of the batch and every other
column, the emitted target entry equals the corresponding values_now
entry. -/
theorem update_model_target_frame {σ W : Type}
    (predict : W → σ → List ℚ) (train : W → List σ → List (List ℚ) → W)
    (sample : List (Transition σ) → Nat → Batch σ) (ag : Agent σ W)
    (r a c : Nat) (row : List ℚ) (tgt : ℚ)
    (hfull : bufferFull ag = true)
    (hrow : (predictConcat (predict ag.value_model) ag.replay_buffer_samples
        (sample ag.buffer ag.replay_buffer_samples).ss
        (sample ag.buffer ag.replay_buffer_samples).ss').1[r]? = some row)
    (ha : (sample ag.buffer ag.replay_buffer_samples).aa[r]? = some a)
    (htgt : (tdTargets ag.final_reward
        (sample ag.buffer ag.replay_buffer_samples).rr
        (sample ag.buffer ag.replay_buffer_samples).dd
        (predictConcat (predict ag.value_model) ag.replay_buffer_samples
          (sample ag.buffer ag.replay_buffer_samples).ss
          (sample ag.buffer ag.replay_buffer_samples).ss').2)[r]? = some tgt)
    (hc : c ≠ a) :
    ∃ ssT yT, (update_model predict train sample ag).2 = some (ssT, yT) ∧
      yT[r]?.bind (fun w => w[c]?) = row[c]? := by
  refine ⟨_, _, update_model_snd_full predict train sample ag hfull, ?_⟩
  unfold putAlongAxis
  rw [zipWith3_getElem _ _ _ _ r row a tgt hrow ha htgt]
  simpa using List.getElem?_set_ne (Ne.symm hc)

/-- Witness for C4: on the concrete done batch the taken action is column
one; column zero of the emitted target row equals column zero of the model's
prediction row. -/
theorem update_model_target_frame_witness :
    bufferFull agentC = true ∧ (0 : Nat) ≠ 1 ∧
    ∃ ssT yT, (update_model predC trainC sampleD agentC).2 =
        some (ssT, yT) ∧
      yT[0]?.bind (fun w => w[0]?) = ([(5 : ℚ), 7] : List ℚ)[0]? :=
  ⟨by decide, by decide,
   update_model_target_frame predC trainC sampleD agentC 0 1 0 [5, 7] 4
     (by decide) (by decide) (by decide) (by decide) (by decide)⟩

/-- C1: concrete evaluation showing the TD target of the standard variant
omits the discount factor. On a full buffer with a one-row non-done batch
(observed reward one, future value estimates two and zero) the emitted
target for the taken action is three, that is reward plus the raw row
maximum of the future value estimates, whereas reward plus gamma times that
row maximum with the agent's configured gamma of ninety-nine hundredths is a
different number — so the emitted target is not the discounted TD target the
specification states. -/
theorem update_model_omits_gamma_at_concrete_batch :
    (update_model predC trainC sampleC agentC).2 =
      some ([0], [[3, 7]]) ∧
    (3 : ℚ) = 1 + rowMax [2, 0] ∧
    ¬ ((3 : ℚ) = 1 + agentC.gamma * rowMax [2, 0]) := by
  refine ⟨?_, ?_, ?_⟩
  · norm_num [update_model, bufferFull, agentC, predC, sampleC, trainC,
      predictConcat, tdTargets, addFutureMax, applyFinalReward,
      putAlongAxis, zipWith3, rowMax]
  · norm_num [rowMax]
  · norm_num [rowMax, agentC]

/-! Monotonicity of the simulated epsilon schedule without perturbation. -/

theorem decayStep_perturb_off {e : EpsilonGreedy}
    (hp : e.perturb_increase_every = 0 ∨ e.perturb_increase_mag = 0) :
    ¬ (0 < e.perturb_increase_every ∧ 0 < e.perturb_increase_mag ∧
        (e.step_count + 1) % e.perturb_increase_every = 0) := by
  rcases hp with h | h
  · rintro ⟨h1, -, -⟩
    omega
  · rintro ⟨-, h2, -⟩
    rw [h] at h2
    exact lt_irrefl 0 h2

theorem decayStep_eps_le (e : EpsilonGreedy) (h0 : 0 ≤ e.eps_min)
    (hm : e.eps_min ≤ e.eps_current) (hd : 0 ≤ e.decay)
    (hp : e.perturb_increase_every = 0 ∨ e.perturb_increase_mag = 0) :
    (decayStep e).eps_current ≤ e.eps_current := by
  have heps : 0 ≤ e.eps_current := le_trans h0 hm
  have hdec : (match e.decay_schedule with
      | .linear => max e.eps_min (e.eps_current - e.decay)
      | .compound => max e.eps_min (e.eps_current * (1 - e.decay))) ≤
      e.eps_current := by
    cases e.decay_schedule with
    | linear => exact max_le hm (by linarith)
    | compound => exact max_le hm (by nlinarith)
  simp only [decayStep]
  rw [if_neg (decayStep_perturb_off hp)]
  exact hdec

theorem decayStep_min_le (e : EpsilonGreedy)
    (hp : e.perturb_increase_every = 0 ∨ e.perturb_increase_mag = 0) :
    e.eps_min ≤ (decayStep e).eps_current := by
  simp only [decayStep]
  rw [if_neg (decayStep_perturb_off hp)]
  cases e.decay_schedule with
  | linear => exact le_max_left _ _
  | compound => exact le_max_left _ _

theorem simulate_head (e : EpsilonGreedy) (steps : Nat) :
    (e.simulate steps).head? = some e.eps_current := by
  cases steps <;> rfl

/-- C9: for every scheduler with a positive decay, a nonnegative floor below
the current epsilon, and perturbation disabled (the period or the magnitude
is zero), the sequence of eps_current values produced by replaying
training-mode selections with simulate is non-increasing at every
consecutive pair. -/
theorem simulate_nonincreasing_without_perturb (e : EpsilonGreedy)
    (h0 : 0 ≤ e.eps_min) (hm : e.eps_min ≤ e.eps_current)
    (hd : 0 < e.decay)
    (hp : e.perturb_increase_every = 0 ∨ e.perturb_increase_mag = 0)
    (steps : Nat) :
    List.Chain' (fun a b => b ≤ a) (e.simulate steps) := by
  induction steps generalizing e with
  | zero => simp [EpsilonGreedy.simulate]
  | succ n ih =>
    rw [EpsilonGreedy.simulate, List.chain'_cons']
    refine ⟨?_, ?_⟩
    · intro b hb
      rw [simulate_head (decayStep e) n] at hb
      simp only [Option.mem_def, Option.some.injEq] at hb
      rw [← hb]
      exact decayStep_eps_le e h0 hm hd.le hp
    · exact ih (decayStep e) h0 (decayStep_min_le e hp) hd hp

/-- Witness for C9 at a concrete compound-decay scheduler with perturbation
disabled, replayed for three steps. -/
theorem simulate_nonincreasing_without_perturb_witness :
    0 ≤ epsSim.eps_min ∧ epsSim.eps_min ≤ epsSim.eps_current ∧
    0 < epsSim.decay ∧
    (epsSim.perturb_increase_every = 0 ∨
      epsSim.perturb_increase_mag = 0) ∧
    List.Chain' (fun a b => b ≤ a) (epsSim.simulate 3) :=
  ⟨by decide, by decide, by decide, Or.inl rfl,
   simulate_nonincreasing_without_perturb epsSim (by decide) (by decide)
     (by decide) (Or.inl rfl) 3⟩
